import Mathlib

/-!
Verification of the round-based federated-training orchestrator from the
PySyft tutorial "Federated learning with websockets and federated averaging"
(the notebook's `train` loop and epoch driver), together with its
collaborators as the specification describes them.

Data model: a `Tensor` is a shape-tagged array of numeric values (rationals
stand in for the floating-point scalars, so the arithmetic facts are exact);
a `ParameterSet` is an ordered name-to-tensor mapping; batches are pairs of
an input and a label tensor.  Python dictionaries are embedded as ordered
association lists, preserving insertion-order iteration.
-/

structure Tensor where
  shape : List ℕ
  data : List ℚ
deriving DecidableEq, Repr, Inhabited

abbrev WorkerId := String

abbrev ParameterSet := List (String × Tensor)

structure Batch where
  input : Tensor
  label : Tensor
deriving DecidableEq, Repr, Inhabited

/-- The name-and-shape signature of a ParameterSet: the part that must agree
across workers for aggregation to be defined. -/
def psKey (p : ParameterSet) : List (String × List ℕ) :=
  p.map (fun e => (e.1, e.2.shape))

/-- A tensor is well formed when its payload length matches its shape. -/
def wfT (t : Tensor) : Prop := t.data.length = t.shape.prod

instance (t : Tensor) : Decidable (wfT t) := by unfold wfT; infer_instance

def wfPS (p : ParameterSet) : Prop := ∀ e ∈ p, wfT e.2

instance (p : ParameterSet) : Decidable (wfPS p) := by unfold wfPS; infer_instance

def addTensor (t u : Tensor) : Tensor :=
  ⟨t.shape, List.zipWith (fun a b => a + b) t.data u.data⟩

def scaleTensor (c : ℚ) (t : Tensor) : Tensor :=
  ⟨t.shape, t.data.map (fun x => c * x)⟩

/-- Elementwise sum of two ParameterSets (used pairwise by the aggregator). -/
def addPS (p q : ParameterSet) : ParameterSet :=
  List.zipWith (fun a b => (a.1, addTensor a.2 b.2)) p q

def scalePS (c : ℚ) (p : ParameterSet) : ParameterSet :=
  p.map (fun e => (e.1, scaleTensor c e.2))

inductive AggError
  | emptyAggregationInput
  | shapeMismatch
deriving DecidableEq, Repr

/-- Modelled from the spec: `syft.frameworks.torch.federated.utils.federated_avg`
is not part of this repository snapshot, only its call site in the notebook is.
Per the spec it takes the mapping WorkerId → ParameterSet produced by a round,
checks that all inputs share the identical name/shape set, fails on an empty
mapping (`EmptyAggregationInput`) or on a mismatch (`ShapeMismatch`), and
otherwise returns the unweighted elementwise arithmetic mean of the inputs
(sum of all inputs scaled by one over the number of workers). -/
def federated_avg (ms : List (WorkerId × ParameterSet)) : Except AggError ParameterSet :=
  match ms with
  | [] => .error .emptyAggregationInput
  | (_, p) :: rest =>
    if rest.all (fun e => decide (psKey e.2 = psKey p)) then
      .ok (scalePS (1 / ((rest.length + 1 : ℕ) : ℚ))
        (rest.foldl (fun acc e => addPS acc e.2) p))
    else .error .shapeMismatch

def psDefault : String × Tensor := ("", ⟨[], []⟩)

/-- Total accessor for the `j`-th scalar of the `i`-th parameter of a
ParameterSet, defaulting to `0` out of range. -/
def valAt (p : ParameterSet) (i j : ℕ) : ℚ :=
  ((p.getD i psDefault).2).data.getD j 0

def isErr {ε α : Type} : Except ε α → Bool
  | .error _ => true
  | .ok _ => false

/-!
The training loop of the notebook:

```python
def train(model, device, federated_train_loader, lr, federate_after_n_batches):
    model.train()
    nr_batches = federate_after_n_batches
    models = {}
    loss_values = {}
    iter(federated_train_loader)  # initialize iterators
    batches = rwc.get_next_batches(federated_train_loader, nr_batches)
    counter = 0
    while True:
        data_for_all_workers = True
        for worker in batches:
            curr_batches = batches[worker]
            if curr_batches:
                models[worker], loss_values[worker] = rwc.train_on_batches(
                    worker, curr_batches, model, device, lr)
            else:
                data_for_all_workers = False
        counter += nr_batches
        if not data_for_all_workers:
            break
        model = utils.federated_avg(models)
        batches = rwc.get_next_batches(federated_train_loader, nr_batches)
    return model
```

The loader is embedded as an ordered association list from WorkerId to the
worker's remaining batch sequence.  Local training (`rwc.train_on_batches`,
not part of this snapshot) is a parameter of type `TrainFn`: per the spec it
trains a copy of the model on its batch slice and returns the updated
parameters with a trace of per-batch losses, never mutating the global model.
-/

/-- A local-training collaborator: worker id, its batch slice and the current
global parameters give back the trained parameters and per-batch losses. -/
abbrev TrainFn := WorkerId → List Batch → ParameterSet → ParameterSet × List ℚ

/-- Modelled from the spec: `rwc.get_next_batches` is not part of this
snapshot.  Per the spec each worker's BatchCursor yields up to `nr` batches
per round (possibly fewer, possibly none once exhausted); the pair returned
is the round assignment and the advanced per-worker cursors. -/
def get_next_batches (nr : ℕ) (parts : List (WorkerId × List Batch)) :
    List (WorkerId × List Batch) × List (WorkerId × List Batch) :=
  (parts.map (fun e => (e.1, e.2.take nr)), parts.map (fun e => (e.1, e.2.drop nr)))

/-- Python dictionary assignment `d[k] = v` on an ordered association list:
replace in place when the key exists, append otherwise. -/
def dictSet (d : List (WorkerId × ParameterSet)) (k : WorkerId) (v : ParameterSet) :
    List (WorkerId × ParameterSet) :=
  if d.any (fun e => decide (e.1 = k)) then
    d.map (fun e => if e.1 = k then (k, v) else e)
  else d ++ [(k, v)]

/-- The per-round worker loop of `train`: every worker with a non-empty
assignment is trained on the current model and recorded into the `models`
dictionary; workers with an empty assignment are skipped. -/
def dispatchRound (tob : TrainFn) (model : ParameterSet)
    (batches : List (WorkerId × List Batch))
    (models : List (WorkerId × ParameterSet)) : List (WorkerId × ParameterSet) :=
  batches.foldl
    (fun acc e => if e.2.isEmpty then acc else dictSet acc e.1 (tob e.1 e.2 model).1)
    models

/-- `data_for_all_workers` at the end of the per-round worker loop. -/
def allHaveData (batches : List (WorkerId × List Batch)) : Bool :=
  batches.all (fun e => !e.2.isEmpty)

/-- Mutable state of one `train` call: the current global model, the `models`
dictionary, the loader's remaining data, the current round assignment and the
batch counter. -/
structure LoopState where
  model : ParameterSet
  models : List (WorkerId × ParameterSet)
  parts : List (WorkerId × List Batch)
  batches : List (WorkerId × List Batch)
  counter : ℕ
deriving DecidableEq, Repr, Inhabited

inductive StepResult
  | next (st : LoopState)
  | done (model : ParameterSet)
  | fail (e : AggError) (model : ParameterSet)
deriving DecidableEq, Repr, Inhabited

/-- One iteration of the `while True` body: train all workers that have data,
advance the counter, then either stop (returning the untouched model) when
some worker ran out of data, or aggregate and fetch the next assignment.
An aggregation error carries the model as it stands when the error surfaces. -/
def trainStep (tob : TrainFn) (nr : ℕ) (st : LoopState) : StepResult :=
  let models' := dispatchRound tob st.model st.batches st.models
  let counter' := st.counter + nr
  if allHaveData st.batches then
    match federated_avg models' with
    | .error e => .fail e st.model
    | .ok m =>
      let nb := get_next_batches nr st.parts
      .next ⟨m, models', nb.2, nb.1, counter'⟩
  else .done st.model

/-- The `while True` loop, with fuel; `none` means the fuel ran out before
the loop returned. -/
def trainLoop (tob : TrainFn) (nr : ℕ) : ℕ → LoopState → Option (Except AggError ParameterSet)
  | 0, _ => none
  | fuel + 1, st =>
    match trainStep tob nr st with
    | .next st' => trainLoop tob nr fuel st'
    | .done m => some (.ok m)
    | .fail e _ => some (.error e)

/-- State at entry of the `while True` loop: fresh cursors, first assignment
already fetched, empty `models` dictionary, counter at zero. -/
def initState (model : ParameterSet) (parts : List (WorkerId × List Batch)) (nr : ℕ) :
    LoopState :=
  ⟨model, [], (get_next_batches nr parts).2, (get_next_batches nr parts).1, 0⟩

/-- The whole `train` call. -/
def train (tob : TrainFn) (model : ParameterSet)
    (parts : List (WorkerId × List Batch)) (nr fuel : ℕ) :
    Option (Except AggError ParameterSet) :=
  trainLoop tob nr fuel (initState model parts nr)

/-- Runs `k` loop iterations provided each of them continues. -/
def iterateSteps (tob : TrainFn) (nr : ℕ) : ℕ → LoopState → Option LoopState
  | 0, st => some st
  | k + 1, st =>
    match trainStep tob nr st with
    | .next st' => iterateSteps tob nr k st'
    | _ => none

def nextOf (r : StepResult) : LoopState :=
  match r with
  | .next st => st
  | _ => default

/-!
The epoch driver of the notebook:

```python
for epoch in range(1, args.epochs + 1):
    model = train(model, device, federated_train_loader, args.lr,
                  args.federate_after_n_batches)
    rwc.test(model, device, test_loader)
```
-/

structure EvalMetrics where
  avgLoss : ℚ
  accuracy : ℚ
deriving DecidableEq, Repr

/-- The model collaborator's `evaluate`: one batch gives back its loss and
the number of correctly classified samples. -/
abbrev EvalFn := ParameterSet → Batch → ℚ × ℕ

def batchSize (b : Batch) : ℕ := b.input.shape.headD 0

/-- Modelled from the spec: `rwc.test` is not part of this snapshot.  Per the
spec the driver runs one centralized evaluation of the current GlobalModel
against the held-out evaluation set, emitting the average loss over its
batches and the accuracy (correct count over sample count). -/
def centralizedEval (ev : EvalFn) (testSet : List Batch) (m : ParameterSet) : EvalMetrics :=
  ⟨(testSet.map (fun b => (ev m b).1)).sum / (testSet.length : ℚ),
   ((testSet.map (fun b => ((ev m b).2 : ℚ))).sum) / (((testSet.map batchSize).sum : ℕ) : ℚ)⟩

/-- The epoch driver: each of the `epochs` iterations trains one epoch (the
`train` call, abstracted as `trainEpoch` since the loader restarts with the
same partitions each epoch) and then evaluates the resulting model, emitting
its metrics.  The pair returned is the final model and the metric stream in
epoch order. -/
def runEpochs (trainEpoch : ParameterSet → ParameterSet) (ev : EvalFn)
    (testSet : List Batch) : ℕ → ParameterSet → ParameterSet × List EvalMetrics
  | 0, m => (m, [])
  | n + 1, m =>
    (((runEpochs trainEpoch ev testSet n) (trainEpoch m)).1,
      centralizedEval ev testSet (trainEpoch m)
        :: ((runEpochs trainEpoch ev testSet n) (trainEpoch m)).2)

/-!
Concrete inputs used by the scenario claim and by the witnesses.
-/

def b0 : Batch := ⟨⟨[], []⟩, ⟨[], []⟩⟩

def scModel : ParameterSet := [("weight", ⟨[1], [6]⟩)]

/-- A local-training collaborator that returns the model unchanged with an
empty loss trace. -/
def scTob : TrainFn := fun _ _ m => (m, [])

/-- The 400/400/325-batch partition of the scenario, `batchesPerRound = 50`. -/
def scParts : List (WorkerId × List Batch) :=
  [("alice", List.replicate 400 b0), ("bob", List.replicate 400 b0),
   ("charlie", List.replicate 325 b0)]

def scSt0 : LoopState := initState scModel scParts 50

/-- Loop state after `k` completed rounds of the scenario; its `batches`
field is the assignment of round `k + 1`. -/
def scState (k : ℕ) : LoopState := (iterateSteps scTob 50 k scSt0).getD default

/-- An exhaustion-round state: alice's assignment is empty while bob still
has a batch. -/
def exhSt : LoopState :=
  ⟨scModel, [], [], [("alice", []), ("bob", [b0])], 0⟩

/-- A local-training collaborator whose output differs from every model that
occurs in `exhSt`, making dispatch observable. -/
def c2Tob : TrainFn := fun _ _ _ => ([("weight", ⟨[1], [7]⟩)], [])

def c7Parts : List (WorkerId × List Batch) := [("alice", [b0, b0])]

def c7St : LoopState := initState scModel c7Parts 1

/-- A two-worker aggregation input with shared name/shape set. -/
def c3Input : List (WorkerId × ParameterSet) :=
  [("alice", [("w", ⟨[2], [1, 2]⟩)]), ("bob", [("w", ⟨[2], [3, 4]⟩)])]

/-!
Helper lemmas about the aggregator's arithmetic.
-/

lemma valAt_nil (i j : ℕ) : valAt [] i j = 0 := by
  simp [valAt, psDefault]

lemma getD_zipWith_add (xs ys : List ℚ) (h : xs.length = ys.length) (j : ℕ) :
    (List.zipWith (fun a b => a + b) xs ys).getD j 0 = xs.getD j 0 + ys.getD j 0 := by
  induction xs generalizing ys j with
  | nil =>
    cases ys with
    | nil => simp
    | cons b u => simp at h
  | cons a t ih =>
    cases ys with
    | nil => simp at h
    | cons b u =>
      cases j with
      | zero => simp
      | succ j => simpa using ih u (by simpa using h) j

lemma getD_map_mul (c : ℚ) (xs : List ℚ) (j : ℕ) :
    (xs.map (fun x => c * x)).getD j 0 = c * xs.getD j 0 := by
  induction xs generalizing j with
  | nil => simp
  | cons a t ih =>
    cases j with
    | zero => simp
    | succ j => simpa using ih j

lemma psKey_length (p : ParameterSet) : (psKey p).length = p.length := by
  simp [psKey]

lemma valAt_scalePS (c : ℚ) (p : ParameterSet) (i j : ℕ) :
    valAt (scalePS c p) i j = c * valAt p i j := by
  induction p generalizing i with
  | nil => simp [scalePS, valAt_nil]
  | cons a t ih =>
    cases i with
    | zero =>
      simp only [scalePS, List.map_cons, valAt, List.getD_cons_zero, scaleTensor]
      exact getD_map_mul c a.2.data j
    | succ i => simpa [scalePS, valAt] using ih i

lemma psKey_scalePS (c : ℚ) (p : ParameterSet) : psKey (scalePS c p) = psKey p := by
  simp [psKey, scalePS, scaleTensor]

lemma addPS_props (p q : ParameterSet) (hk : psKey q = psKey p)
    (hp : wfPS p) (hq : wfPS q) :
    psKey (addPS p q) = psKey p ∧ wfPS (addPS p q) ∧
      ∀ i j, valAt (addPS p q) i j = valAt p i j + valAt q i j := by
  induction p generalizing q with
  | nil =>
    refine ⟨by simp [addPS, psKey], by simp [addPS, wfPS], ?_⟩
    intro i j
    have hq0 : q = [] := by
      have := congrArg List.length hk
      simpa [psKey_length] using List.eq_nil_of_length_eq_zero (by simpa [psKey_length] using this)
    subst hq0
    simp [addPS, valAt_nil]
  | cons a t ih =>
    cases q with
    | nil => simp [psKey] at hk
    | cons b u =>
      simp only [psKey, List.map_cons, List.cons.injEq, Prod.mk.injEq] at hk
      obtain ⟨⟨hn, hs⟩, htail⟩ := hk
      have hpt : wfPS t := fun e he => hp e (List.mem_cons_of_mem _ he)
      have hqu : wfPS u := fun e he => hq e (List.mem_cons_of_mem _ he)
      have hpa : wfT a.2 := hp a (List.mem_cons_self _ _)
      have hqb : wfT b.2 := hq b (List.mem_cons_self _ _)
      obtain ⟨ihk, ihw, ihv⟩ := ih u htail hpt hqu
      have hlen : a.2.data.length = b.2.data.length := by
        rw [hpa, hqb, hs]
      refine ⟨?_, ?_, ?_⟩
      · simp only [addPS, List.zipWith_cons_cons, psKey, List.map_cons]
        refine congrArg₂ _ ?_ ?_
        · simp [addTensor]
        · simpa [psKey] using ihk
      · intro e he
        simp only [addPS, List.zipWith_cons_cons, List.mem_cons] at he
        rcases he with he | he
        · subst he
          simpa [wfT, addTensor, hlen] using hpa
        · exact ihw e he
      · intro i j
        cases i with
        | zero =>
          simp only [addPS, List.zipWith_cons_cons, valAt, List.getD_cons_zero]
          exact getD_zipWith_add _ _ hlen j
        | succ i =>
          simpa [addPS, valAt] using ihv i j

lemma foldl_addPS_props (rest : List ParameterSet) (p : ParameterSet)
    (hk : ∀ q ∈ rest, psKey q = psKey p) (hp : wfPS p)
    (hr : ∀ q ∈ rest, wfPS q) :
    psKey (rest.foldl addPS p) = psKey p ∧
      ∀ i j, valAt (rest.foldl addPS p) i j
        = valAt p i j + (rest.map (fun q => valAt q i j)).sum := by
  induction rest generalizing p with
  | nil => exact ⟨rfl, fun i j => by simp⟩
  | cons q t ih =>
    have hkq : psKey q = psKey p := hk q (List.mem_cons_self _ _)
    have hwq : wfPS q := hr q (List.mem_cons_self _ _)
    obtain ⟨hak, haw, hav⟩ := addPS_props p q hkq hp hwq
    have hk' : ∀ r ∈ t, psKey r = psKey (addPS p q) := by
      intro r hrr
      rw [hak]; exact hk r (List.mem_cons_of_mem _ hrr)
    have hr' : ∀ r ∈ t, wfPS r := fun r hrr => hr r (List.mem_cons_of_mem _ hrr)
    obtain ⟨ihk, ihv⟩ := ih (addPS p q) hk' haw hr'
    refine ⟨by rw [List.foldl_cons, ihk, hak], ?_⟩
    intro i j
    rw [List.foldl_cons, ihv i j, hav i j]
    simp [add_assoc]

/-!
Helper lemmas about the training loop.
-/

lemma allHaveData_eq_false_iff (bs : List (WorkerId × List Batch)) :
    allHaveData bs = false ↔ ∃ e ∈ bs, e.2 = [] := by
  simp [allHaveData, List.all_eq_false, List.isEmpty_iff]

lemma trainStep_done_of_exhausted (tob : TrainFn) (nr : ℕ) (st : LoopState)
    (h : ∃ e ∈ st.batches, e.2 = []) :
    trainStep tob nr st = .done st.model := by
  have hall : allHaveData st.batches = false := (allHaveData_eq_false_iff _).mpr h
  simp [trainStep, hall]

lemma dispatchRound_eq_filter (tob : TrainFn) (m : ParameterSet)
    (bs : List (WorkerId × List Batch)) (d : List (WorkerId × ParameterSet)) :
    dispatchRound tob m bs d
      = (bs.filter (fun e => !e.2.isEmpty)).foldl
          (fun acc e => dictSet acc e.1 (tob e.1 e.2 m).1) d := by
  induction bs generalizing d with
  | nil => rfl
  | cons b t ih =>
    cases hb : b.2.isEmpty with
    | true =>
      have hb' : b.2 = [] := List.isEmpty_iff.mp hb
      have hstep : dispatchRound tob m (b :: t) d = dispatchRound tob m t d := by
        simp [dispatchRound, hb']
      rw [hstep, List.filter_cons, hb]
      simpa using ih d
    | false =>
      have hb' : ¬b.2 = [] := by simpa [List.isEmpty_iff] using hb
      have hstep : dispatchRound tob m (b :: t) d
          = dispatchRound tob m t (dictSet d b.1 (tob b.1 b.2 m).1) := by
        simp [dispatchRound, hb']
      rw [hstep, List.filter_cons, hb]
      simpa using ih (dictSet d b.1 (tob b.1 b.2 m).1)

/-!
Claim theorems.
-/

/-- C1: in any round whose assignment leaves at least one worker with an
empty batch list, no aggregation is performed, the epoch ends, and the model
returned by the training loop is exactly the GlobalModel held when that
round began. -/
theorem trainLoop_exhausted_returns_prior_model (tob : TrainFn) (nr fuel : ℕ)
    (st : LoopState) (h : ∃ e ∈ st.batches, e.2 = []) :
    trainLoop tob nr (fuel + 1) st = some (.ok st.model) := by
  simp [trainLoop, trainStep_done_of_exhausted tob nr st h]

theorem trainLoop_exhausted_returns_prior_model_witness :
    (∃ e ∈ exhSt.batches, e.2 = []) ∧
      trainLoop scTob 5 1 exhSt = some (.ok exhSt.model) :=
  ⟨⟨("alice", []), by decide, rfl⟩,
    trainLoop_exhausted_returns_prior_model scTob 5 0 exhSt ⟨("alice", []), by decide, rfl⟩⟩

/-- C2 counterexample: in a round where alice's assignment is empty but bob's
is not, the scheduler still dispatches local training — the `models`
dictionary gains bob's freshly trained parameters — refuting the claim that
no local-training work is dispatched to any worker in such a round. -/
theorem no_dispatch_on_exhaustion_counterexample :
    (∃ e ∈ exhSt.batches, e.2 = []) ∧
      dispatchRound c2Tob exhSt.model exhSt.batches exhSt.models
        = [("bob", [("weight", ⟨[1], [7]⟩)])] ∧
      dispatchRound c2Tob exhSt.model exhSt.batches exhSt.models ≠ exhSt.models := by
  refine ⟨⟨("alice", []), by decide, rfl⟩, by decide, by decide⟩

/-- C2 (amended): in a round where some worker's assignment is empty, the
scheduler signals epoch-complete without aggregating — the step returns the
prior GlobalModel — but it still dispatches local training to every worker
whose assignment is non-empty (in mapping order) before stopping. -/
theorem exhausted_round_signals_done_but_dispatches (tob : TrainFn) (nr : ℕ)
    (st : LoopState) (h : ∃ e ∈ st.batches, e.2 = []) :
    trainStep tob nr st = .done st.model ∧
      dispatchRound tob st.model st.batches st.models
        = (st.batches.filter (fun e => !e.2.isEmpty)).foldl
            (fun acc e => dictSet acc e.1 (tob e.1 e.2 st.model).1) st.models :=
  ⟨trainStep_done_of_exhausted tob nr st h,
    dispatchRound_eq_filter tob st.model st.batches st.models⟩

theorem exhausted_round_signals_done_but_dispatches_witness :
    trainStep scTob 5 exhSt = .done exhSt.model ∧
      dispatchRound scTob exhSt.model exhSt.batches exhSt.models
        = (exhSt.batches.filter (fun e => !e.2.isEmpty)).foldl
            (fun acc e => dictSet acc e.1 (scTob e.1 e.2 exhSt.model).1) exhSt.models :=
  exhausted_round_signals_done_but_dispatches scTob 5 exhSt ⟨("alice", []), by decide, rfl⟩

/-- C10: in the exhaustion-signaling round every worker with a non-empty
assignment is still trained, in the mapping's iteration order (the `models`
dictionary update folds exactly over those workers), yet the loop's return
value is the prior GlobalModel for every possible local-training function —
the final round's training results are discarded without aggregation. -/
theorem final_round_training_discarded (tob : TrainFn) (nr fuel : ℕ)
    (st : LoopState) (h : ∃ e ∈ st.batches, e.2 = []) :
    dispatchRound tob st.model st.batches st.models
      = (st.batches.filter (fun e => !e.2.isEmpty)).foldl
          (fun acc e => dictSet acc e.1 (tob e.1 e.2 st.model).1) st.models ∧
    ∀ g : TrainFn, trainLoop g nr (fuel + 1) st = some (.ok st.model) := by
  refine ⟨dispatchRound_eq_filter tob st.model st.batches st.models, ?_⟩
  intro g
  simp [trainLoop, trainStep_done_of_exhausted g nr st h]

theorem final_round_training_discarded_witness :
    dispatchRound c2Tob exhSt.model exhSt.batches exhSt.models
      = (exhSt.batches.filter (fun e => !e.2.isEmpty)).foldl
          (fun acc e => dictSet acc e.1 (c2Tob e.1 e.2 exhSt.model).1) exhSt.models ∧
    ∀ g : TrainFn, trainLoop g 3 (0 + 1) exhSt = some (.ok exhSt.model) :=
  final_round_training_discarded c2Tob 3 0 exhSt ⟨("alice", []), by decide, rfl⟩

/-- C3: on every non-empty mapping whose well-formed ParameterSets all share
the same name/shape signature, `federated_avg` succeeds with a ParameterSet
of that same signature, each of whose scalars is the unweighted arithmetic
mean of the corresponding scalars of the inputs. -/
theorem federated_avg_is_mean (ms : List (WorkerId × ParameterSet))
    (hne : ms ≠ [])
    (hkey : ∀ p ∈ ms, ∀ q ∈ ms, psKey p.2 = psKey q.2)
    (hwf : ∀ p ∈ ms, wfPS p.2) :
    ∃ out, federated_avg ms = .ok out ∧
      (∀ p ∈ ms, psKey out = psKey p.2) ∧
      ∀ i j, valAt out i j
        = (ms.map (fun p => valAt p.2 i j)).sum / (ms.length : ℚ) := by
  match ms, hne with
  | (w, p) :: rest, _ =>
    have hhead : (w, p) ∈ (w, p) :: rest := List.mem_cons_self _ _
    have hkeyhead : ∀ e ∈ rest, psKey e.2 = psKey p := fun e he =>
      hkey e (List.mem_cons_of_mem _ he) (w, p) hhead
    have hguard : (rest.all fun e => decide (psKey e.2 = psKey p)) = true := by
      rw [List.all_eq_true]
      intro e he
      simpa using hkeyhead e he
    have hfold := foldl_addPS_props (rest.map (fun e => e.2)) p
      (by
        intro q hq
        obtain ⟨e, he, rfl⟩ := List.mem_map.mp hq
        exact hkeyhead e he)
      (hwf (w, p) hhead)
      (by
        intro q hq
        obtain ⟨e, he, rfl⟩ := List.mem_map.mp hq
        exact hwf e (List.mem_cons_of_mem _ he))
    obtain ⟨hfk, hfv⟩ := hfold
    have hfoldeq : rest.foldl (fun acc e => addPS acc e.2) p
        = (rest.map (fun e => e.2)).foldl addPS p := (List.foldl_map _ _ _ _).symm
    refine ⟨scalePS (1 / ((rest.length + 1 : ℕ) : ℚ))
      (rest.foldl (fun acc e => addPS acc e.2) p), ?_, ?_, ?_⟩
    · simp [federated_avg, hguard]
    · intro q hq
      rw [psKey_scalePS, hfoldeq, hfk]
      exact hkey (w, p) hhead q hq
    · intro i j
      rw [valAt_scalePS, hfoldeq, hfv i j]
      rw [List.map_cons, List.sum_cons, List.length_cons, List.map_map]
      rw [Nat.cast_add, Nat.cast_one, one_div_mul_eq_div]
      rfl

theorem federated_avg_is_mean_witness :
    ∃ out, federated_avg c3Input = .ok out ∧
      (∀ p ∈ c3Input, psKey out = psKey p.2) ∧
      ∀ i j, valAt out i j
        = (c3Input.map (fun p => valAt p.2 i j)).sum / (c3Input.length : ℚ) :=
  federated_avg_is_mean c3Input (by decide) (by decide) (by decide)

/-- C4: `federated_avg` of a single-worker mapping is the identity — it
returns that worker's ParameterSet unchanged. -/
theorem federated_avg_singleton (w : WorkerId) (p : ParameterSet) :
    federated_avg [(w, p)] = .ok p := by
  simp only [federated_avg, List.all_nil, if_true, List.foldl_nil, List.length_nil]
  norm_num
  refine List.ext_getElem (by simp [scalePS]) ?_
  intro i h1 h2
  simp [scalePS, scaleTensor]

/-- C5: `federated_avg` fails exactly when the input mapping is empty or two
of its ParameterSets disagree on the name/shape signature; and when a round's
aggregation fails, the loop's GlobalModel is left untouched — the failure
outcome carries the model from the round's start. -/
theorem federated_avg_error_iff_and_model_preserved :
    (∀ ms : List (WorkerId × ParameterSet),
        isErr (federated_avg ms) = true ↔
          ms = [] ∨ ∃ p ∈ ms, ∃ q ∈ ms, psKey p.2 ≠ psKey q.2) ∧
    (∀ (tob : TrainFn) (nr : ℕ) (st : LoopState) (e : AggError) (m : ParameterSet),
        trainStep tob nr st = .fail e m → m = st.model) := by
  constructor
  · intro ms
    cases ms with
    | nil => simp [federated_avg, isErr]
    | cons hd rest =>
      obtain ⟨w, p⟩ := hd
      by_cases hg : (rest.all fun e => decide (psKey e.2 = psKey p)) = true
      · have hall : ∀ e ∈ rest, psKey e.2 = psKey p := by
          intro e he
          have := List.all_eq_true.mp hg e he
          simpa using this
        have hok : isErr (federated_avg ((w, p) :: rest)) = false := by
          simp [federated_avg, hg, isErr]
        rw [hok]
        constructor
        · intro hfalse
          exact absurd hfalse (by simp)
        · rintro (hnil | ⟨a, ha, b, hb, hab⟩)
          · exact absurd hnil (by simp)
          · have hone : ∀ c ∈ (w, p) :: rest, psKey c.2 = psKey p := by
              intro c hc
              rcases List.mem_cons.mp hc with hc | hc
              · rw [hc]
              · exact hall c hc
            exact absurd ((hone a ha).trans (hone b hb).symm) hab
      · have herr : isErr (federated_avg ((w, p) :: rest)) = true := by
          simp only [federated_avg, if_neg hg, isErr]
        rw [herr]
        constructor
        · intro _
          right
          have : ∃ e ∈ rest, ¬psKey e.2 = psKey p := by
            by_contra hcon
            push_neg at hcon
            exact hg (List.all_eq_true.mpr (fun e he => by simpa using hcon e he))
          obtain ⟨e, he, hne'⟩ := this
          exact ⟨e, List.mem_cons_of_mem _ he, (w, p), List.mem_cons_self _ _, hne'⟩
        · intro _
          rfl
  · intro tob nr st e m h
    by_cases hall : allHaveData st.batches
    · cases hfa : federated_avg (dispatchRound tob st.model st.batches st.models) with
      | error e' =>
        have : StepResult.fail e' st.model = .fail e m := by
          rw [← h]
          simp [trainStep, hall, hfa]
        cases this
        rfl
      | ok mm =>
        have : StepResult.next
            ⟨mm, dispatchRound tob st.model st.batches st.models,
              (get_next_batches nr st.parts).2, (get_next_batches nr st.parts).1,
              st.counter + nr⟩ = .fail e m := by
          rw [← h]
          simp [trainStep, hall, hfa]
        cases this
    · have : StepResult.done st.model = .fail e m := by
        rw [← h]
        simp [trainStep, hall]
      cases this

theorem federated_avg_error_witness :
    isErr (federated_avg ([] : List (WorkerId × ParameterSet))) = true :=
  (federated_avg_error_iff_and_model_preserved.1 []).mpr (Or.inl rfl)

/-- C6: the driver performs exactly `n` epochs and stops — the final model is
the `n`-fold iterate of the per-epoch training — and after every epoch it
emits exactly one centralized evaluation of the GlobalModel current at that
epoch's end, as (average loss, accuracy) metrics. -/
theorem runEpochs_count_and_eval (te : ParameterSet → ParameterSet) (ev : EvalFn)
    (ts : List Batch) (n : ℕ) (m : ParameterSet) :
    (runEpochs te ev ts n m).1 = te^[n] m ∧
    (runEpochs te ev ts n m).2.length = n ∧
    (runEpochs te ev ts n m).2
      = (List.range n).map (fun k => centralizedEval ev ts (te^[k + 1] m)) := by
  induction n generalizing m with
  | zero => simp [runEpochs]
  | succ n ih =>
    obtain ⟨ih1, ih2, ih3⟩ := ih (te m)
    refine ⟨?_, ?_, ?_⟩
    · simp only [runEpochs]
      rw [ih1, ← Function.iterate_succ_apply]
    · simp only [runEpochs, List.length_cons, ih2]
    · simp only [runEpochs]
      rw [ih3, List.range_succ_eq_map, List.map_cons, List.map_map]
      refine congrArg₂ _ ?_ ?_
      · rw [Function.iterate_one]
      · refine List.map_congr_left ?_
        intro k _
        simp only [Function.comp_apply]
        rw [← Function.iterate_succ_apply]

/-- C7: whenever a round completes (the loop continues), the new GlobalModel
is the aggregator's output over this round's per-worker results — computed
from the round's own assignment and starting model — the next assignment is
fetched from the cursors afterwards, and the counter grows by exactly
`batchesPerRound`; hence after `k` completed rounds from the start of a
`train` call the counter equals `k * batchesPerRound`. -/
theorem round_advance_properties (tob : TrainFn) (nr : ℕ) :
    (∀ st st' : LoopState, trainStep tob nr st = .next st' →
        federated_avg (dispatchRound tob st.model st.batches st.models) = .ok st'.model ∧
        st'.models = dispatchRound tob st.model st.batches st.models ∧
        st'.batches = (get_next_batches nr st.parts).1 ∧
        st'.parts = (get_next_batches nr st.parts).2 ∧
        st'.counter = st.counter + nr) ∧
    (∀ (k : ℕ) (st st' : LoopState), iterateSteps tob nr k st = some st' →
        st'.counter = st.counter + k * nr) ∧
    (∀ (k : ℕ) (m : ParameterSet) (parts : List (WorkerId × List Batch))
        (st' : LoopState),
        iterateSteps tob nr k (initState m parts nr) = some st' →
        st'.counter = k * nr) := by
  have hstep : ∀ st st' : LoopState, trainStep tob nr st = .next st' →
      federated_avg (dispatchRound tob st.model st.batches st.models) = .ok st'.model ∧
      st'.models = dispatchRound tob st.model st.batches st.models ∧
      st'.batches = (get_next_batches nr st.parts).1 ∧
      st'.parts = (get_next_batches nr st.parts).2 ∧
      st'.counter = st.counter + nr := by
    intro st st' h
    by_cases hall : allHaveData st.batches
    · cases hfa : federated_avg (dispatchRound tob st.model st.batches st.models) with
      | error e =>
        have : StepResult.fail e st.model = .next st' := by
          rw [← h]
          simp [trainStep, hall, hfa]
        cases this
      | ok mm =>
        have heq : StepResult.next
            ⟨mm, dispatchRound tob st.model st.batches st.models,
              (get_next_batches nr st.parts).2, (get_next_batches nr st.parts).1,
              st.counter + nr⟩ = .next st' := by
          rw [← h]
          simp [trainStep, hall, hfa]
        cases heq
        exact ⟨rfl, rfl, rfl, rfl, rfl⟩
    · have : StepResult.done st.model = .next st' := by
        rw [← h]
        simp [trainStep, hall]
      cases this
  have hcount : ∀ (k : ℕ) (st st' : LoopState),
      iterateSteps tob nr k st = some st' → st'.counter = st.counter + k * nr := by
    intro k
    induction k with
    | zero =>
      intro st st' h
      have : st = st' := by simpa [iterateSteps] using h
      rw [← this]
      simp
    | succ k ih =>
      intro st st' h
      rw [iterateSteps] at h
      cases hs : trainStep tob nr st with
      | next s1 =>
        rw [hs] at h
        have hk := ih s1 st' h
        have hc := (hstep st s1 hs).2.2.2.2
        rw [hk, hc]
        ring
      | done m1 =>
        rw [hs] at h
        cases h
      | fail e1 m1 =>
        rw [hs] at h
        cases h
  refine ⟨hstep, hcount, ?_⟩
  intro k m parts st' h
  have := hcount k (initState m parts nr) st' h
  simpa [initState] using this

theorem round_advance_properties_witness :
    (nextOf (trainStep scTob 1 c7St)).counter = 1 * 1 :=
  (round_advance_properties scTob 1).2.2 1 scModel c7Parts
    (nextOf (trainStep scTob 1 c7St)) rfl

/-- C9: with partitions of 400, 400 and 325 batches and 50 batches per round,
round 7's assignment delivers charlie only its remaining 25 batches, round
8's assignment is empty for charlie while alice and bob each still receive a
full 50, and the loop stops at round 8 without aggregating it, returning the
model produced by round 7 (`scState k` is the loop state after `k` completed
rounds, so its `batches` field is round `k + 1`'s assignment). -/
theorem scenario_unequal_partitions :
    (scState 6).batches
      = [("alice", List.replicate 50 b0), ("bob", List.replicate 50 b0),
         ("charlie", List.replicate 25 b0)] ∧
    (scState 7).batches
      = [("alice", List.replicate 50 b0), ("bob", List.replicate 50 b0),
         ("charlie", [])] ∧
    (scState 7).counter = 350 ∧
    trainStep scTob 50 (scState 7) = .done (scState 7).model ∧
    trainLoop scTob 50 9 scSt0 = some (.ok (scState 7).model) :=
  ⟨rfl, rfl, rfl, rfl, rfl⟩
